import Mathlib

/-!
Verification of the Qwen-Copilot core against its specification.

The development shallowly embeds the two algorithmic cores of the
repository:

* the stream aggregator of `src/qwen-client.ts` (`streamChatCompletion`),
  which reassembles indexed tool-call fragments from a completion stream
  into ordered `tool_call` events, and
* the OAuth state machines of `src/auth.ts` (`getValidAccessToken`,
  `refreshAccessToken`, the device-polling loop of `startDeviceFlow`,
  and `clearCredentials`).

JavaScript strings become `String`, JavaScript numbers become `Int` or
`Nat` where only non-negative integers occur, optional fields become
`Option`, and JavaScript truthiness of a string (`if (s)`) becomes
`s ≠ ""` on present values.  Asynchronous generators become pure
functions from the list of incoming chunks to the list of yielded
events; stateful methods become explicit state-passing functions.
-/

namespace QwenCopilot

/-! ## JSON values and a model of the `JSON.parse` builtin -/

/-- JSON values.  Numbers are restricted to integers, which covers every
payload exercised in this development. -/
inductive Json where
  | null : Json
  | bool (b : Bool) : Json
  | num (n : Int) : Json
  | str (s : String) : Json
  | arr (xs : List Json) : Json
  | obj (kvs : List (String × Json)) : Json

/-- JSON whitespace characters. -/
def isJsonWs (c : Char) : Bool :=
  c = ' ' || c = '\t' || c = '\n' || c = '\r'

/-- Drop leading JSON whitespace. -/
def skipWs : List Char → List Char
  | [] => []
  | c :: cs => if isJsonWs c then skipWs cs else c :: cs

/-- Parse the remainder of a JSON string literal (after the opening
quote), handling the basic escape sequences. -/
def parseStringRest : List Char → Option (String × List Char)
  | [] => none
  | c :: cs =>
    if c = '"' then some ("", cs)
    else if c = '\\' then
      match cs with
      | [] => none
      | e :: cs' =>
        let dec : Option Char :=
          if e = '"' then some '"'
          else if e = '\\' then some '\\'
          else if e = '/' then some '/'
          else if e = 'n' then some '\n'
          else if e = 't' then some '\t'
          else if e = 'r' then some '\r'
          else none
        match dec with
        | none => none
        | some d =>
          match parseStringRest cs' with
          | none => none
          | some (s, rest) => some (⟨d :: s.data⟩, rest)
    else
      match parseStringRest cs with
      | none => none
      | some (s, rest) => some (⟨c :: s.data⟩, rest)

/-- Consume a run of decimal digits, folding them into `acc`. -/
def parseDigitsAux (acc : Nat) : List Char → Nat × List Char
  | [] => (acc, [])
  | c :: cs =>
    if c.isDigit then parseDigitsAux (acc * 10 + (c.toNat - '0'.toNat)) cs
    else (acc, c :: cs)

/-- Parse an integer JSON number (optional minus sign, then digits). -/
def parseNumber : List Char → Option (Int × List Char)
  | [] => none
  | c :: cs =>
    if c = '-' then
      match cs with
      | [] => none
      | d :: _ =>
        if d.isDigit then
          let (n, rest) := parseDigitsAux 0 cs
          some (-(n : Int), rest)
        else none
    else if c.isDigit then
      let (n, rest) := parseDigitsAux 0 (c :: cs)
      some ((n : Int), rest)
    else none

/-- The three intermediate states of the JSON parser: parsing a value,
the members of an object, or the items of an array.  For `members` and
`items`, `first` marks whether no element has been consumed yet and the
input is pre-skipped of whitespace. -/
inductive ParseTask where
  | value (cs : List Char)
  | members (cs : List Char) (first : Bool) (acc : List (String × Json))
  | items (cs : List Char) (first : Bool) (acc : List Json)

/-- Parse a JSON fragment; `fuel` bounds the recursion.  Returns the
value and the unconsumed input. -/
def parseJ : Nat → ParseTask → Option (Json × List Char)
  | 0, _ => none
  | fuel + 1, .value cs =>
    match skipWs cs with
    | 'n' :: 'u' :: 'l' :: 'l' :: rest => some (.null, rest)
    | 't' :: 'r' :: 'u' :: 'e' :: rest => some (.bool true, rest)
    | 'f' :: 'a' :: 'l' :: 's' :: 'e' :: rest => some (.bool false, rest)
    | '"' :: rest =>
      (match parseStringRest rest with
       | none => none
       | some (s, rest') => some (.str s, rest'))
    | '\x7b' :: rest => parseJ fuel (.members (skipWs rest) true [])
    | '[' :: rest => parseJ fuel (.items (skipWs rest) true [])
    | other =>
      match parseNumber other with
      | none => none
      | some (n, rest) => some (.num n, rest)
  | _ + 1, .members [] _ _ => none
  | fuel + 1, .members (c :: cs) first acc =>
    if c = '\x7d' then some (.obj acc.reverse, cs)
    else
      (match (if first then some (c :: cs) else
               if c = ',' then some (skipWs cs) else none) with
       | none => none
       | some afterSep =>
         match afterSep with
         | '"' :: rest =>
           (match parseStringRest rest with
            | none => none
            | some (k, rest') =>
              match skipWs rest' with
              | ':' :: rest'' =>
                (match parseJ fuel (.value rest'') with
                 | none => none
                 | some (v, rest''') =>
                   parseJ fuel (.members (skipWs rest''') false ((k, v) :: acc)))
              | _ => none)
         | _ => none)
  | _ + 1, .items [] _ _ => none
  | fuel + 1, .items (c :: cs) first acc =>
    if c = ']' then some (.arr acc.reverse, cs)
    else
      match (if first then some (c :: cs) else
              if c = ',' then some (skipWs cs) else none) with
      | none => none
      | some afterSep =>
        match parseJ fuel (.value afterSep) with
        | none => none
        | some (v, rest) => parseJ fuel (.items (skipWs rest) false (v :: acc))

/-- Modelled from the spec: the ECMAScript `JSON.parse` builtin used by
`streamChatCompletion` (src/qwen-client.ts line 105) is not part of this
repository; it is modelled here for the JSON subset the program
exchanges (objects, arrays, strings, integer numbers, booleans, null).
`none` models a thrown `SyntaxError`. -/
def jsonParse (s : String) : Option Json :=
  match parseJ (s.length + 1) (.value s.data) with
  | none => none
  | some (v, rest) =>
    match skipWs rest with
    | [] => some v
    | _ => none

/-- Model of `String.prototype.trim` for the whitespace characters the
program exchanges. -/
def jsTrim (s : String) : String :=
  ⟨((s.data.dropWhile isJsonWs).reverse.dropWhile isJsonWs).reverse⟩

/-! ## Stream aggregator (`streamChatCompletion`, src/qwen-client.ts) -/

/-- One element of a `delta.tool_calls` array: `call.index` (kept only
when it is a number), `call.id`, `call.function?.name` and
`call.function?.arguments`, each possibly absent. -/
structure ToolCallFragment where
  index : Option Nat
  id : Option String
  name : Option String
  arguments : Option String
deriving DecidableEq

/-- One chunk of the completion stream: `chunk.choices[0]?.delta?.content`
and `delta?.tool_calls`.  An absent delta is the chunk with both fields
absent. -/
structure StreamChunk where
  content : Option String
  tool_calls : Option (List ToolCallFragment)
deriving DecidableEq

/-- JavaScript truthiness of an optional string: present and non-empty
(`if (s)` with `s : string | undefined`). -/
def truthyStr : Option String → Bool
  | none => false
  | some s => s != ""

/-- The per-index accumulator `{ id: string; name?: string;
arguments: string }` of `toolCallsByIndex`. -/
structure ToolCallAcc where
  id : String
  name : Option String
  arguments : String
deriving DecidableEq

/-- `Map.get` on the insertion-ordered map `toolCallsByIndex`. -/
def mapGet (m : List (Nat × ToolCallAcc)) (k : Nat) : Option ToolCallAcc :=
  match m with
  | [] => none
  | (k', v) :: rest => if k' = k then some v else mapGet rest k

/-- `Map.set` on the insertion-ordered map `toolCallsByIndex`: replace
in place when the key is bound, otherwise append. -/
def mapSet (m : List (Nat × ToolCallAcc)) (k : Nat) (v : ToolCallAcc) :
    List (Nat × ToolCallAcc) :=
  match m with
  | [] => [(k, v)]
  | (k', v') :: rest =>
    if k' = k then (k, v) :: rest else (k', v') :: mapSet rest k v

/-- `typeof call.index === 'number' ? call.index : 0`
(src/qwen-client.ts line 75). -/
def fragIndex (call : ToolCallFragment) : Nat :=
  call.index.getD 0

/-- The fresh accumulator `{ id: call.id ?? `tool_call_${index}`,
arguments: '' }` created when no accumulator exists for the index yet
(src/qwen-client.ts lines 76–80). -/
def accCreate (index : Nat) (call : ToolCallFragment) : ToolCallAcc :=
  { id := match call.id with
      | some s => s
      | none => "tool_call_" ++ toString index,
    name := none, arguments := "" }

/-- The three conditional updates applied to an accumulator for each
fragment (src/qwen-client.ts lines 82–90): overwrite `id` and `name`
when the fragment carries truthy values, append truthy `arguments`. -/
def accUpdate (existing : ToolCallAcc) (call : ToolCallFragment) : ToolCallAcc :=
  let existing :=
    if truthyStr call.id then { existing with id := call.id.getD "" }
    else existing
  let existing :=
    if truthyStr call.name then { existing with name := call.name }
    else existing
  if truthyStr call.arguments then
    { existing with arguments := existing.arguments ++ call.arguments.getD "" }
  else existing

/-- The body of the inner `for (const call of toolCalls)` loop
(src/qwen-client.ts lines 74–93): fetch or create the accumulator for
the fragment's index, apply the conditional updates, and store it
back. -/
def applyFragment (m : List (Nat × ToolCallAcc)) (call : ToolCallFragment) :
    List (Nat × ToolCallAcc) :=
  let index := fragIndex call
  let existing :=
    match mapGet m index with
    | some e => e
    | none => accCreate index call
  mapSet m index (accUpdate existing call)

/-- A stream event yielded by `streamChatCompletion`: incremental text
or a finalized tool call. -/
inductive QwenStreamEvent where
  | text (text : String)
  | toolCall (callId : String) (name : String) (input : Json)

/-- The text events a single chunk yields: one `text` event when
`delta?.content` is truthy (src/qwen-client.ts lines 66–70). -/
def chunkTextEvents (c : StreamChunk) : List QwenStreamEvent :=
  match c.content with
  | some s => if s != "" then [.text s] else []
  | none => []

/-- Fold one chunk's tool-call fragments into the accumulator map
(src/qwen-client.ts lines 72–94); an absent `tool_calls` leaves the map
unchanged. -/
def applyChunkToolCalls (m : List (Nat × ToolCallAcc)) (c : StreamChunk) :
    List (Nat × ToolCallAcc) :=
  match c.tool_calls with
  | none => m
  | some calls => calls.foldl applyFragment m

/-- The `for await` loop of `streamChatCompletion`: consume the chunks
in arrival order, yielding text events as they occur and accumulating
tool-call fragments; returns the yielded events and the final map. -/
def runStream : List StreamChunk → List (Nat × ToolCallAcc) →
    List QwenStreamEvent × List (Nat × ToolCallAcc)
  | [], m => ([], m)
  | c :: rest, m =>
    let evs := chunkTextEvents c
    let m' := applyChunkToolCalls m c
    let (evs', m'') := runStream rest m'
    (evs ++ evs', m'')

/-- `Array.from(map.entries()).sort((a, b) => a[0] - b[0])`: the map
entries in ascending key order. -/
def sortByIndex (m : List (Nat × ToolCallAcc)) : List (Nat × ToolCallAcc) :=
  List.insertionSort (fun a b => a.1 ≤ b.1) m

/-- Finalize one accumulator (src/qwen-client.ts lines 100–117): default
the name to `"tool"`, parse the argument buffer when its trimmed form is
non-empty (falling back to `{_raw: <buffer>}` on a parse error, and to
`{}` on an empty buffer), and emit the `tool_call` event. -/
def finalizeAcc (call : ToolCallAcc) : QwenStreamEvent :=
  let name := call.name.getD "tool"
  let input : Json :=
    if (jsTrim call.arguments).length > 0 then
      match jsonParse call.arguments with
      | some j => j
      | none => .obj [("_raw", .str call.arguments)]
    else .obj []
  .toolCall call.id name input

/-- The post-drain emission phase (src/qwen-client.ts lines 97–118):
when the map is non-empty, emit one `tool_call` event per accumulator in
ascending index order. -/
def finalizeToolCalls (m : List (Nat × ToolCallAcc)) : List QwenStreamEvent :=
  if m.length > 0 then (sortByIndex m).map (fun kv => finalizeAcc kv.2)
  else []

/-- `streamChatCompletion` as a function from the arriving chunks to the
full sequence of yielded events. -/
def streamChatCompletion (chunks : List StreamChunk) : List QwenStreamEvent :=
  let (textEvents, m) := runStream chunks []
  textEvents ++ finalizeToolCalls m

/-- The text events of a chunk sequence in arrival order: what the
`for await` loop yields before the stream is drained. -/
def textEventsOf : List StreamChunk → List QwenStreamEvent
  | [] => []
  | c :: rest => chunkTextEvents c ++ textEventsOf rest

/-- The accumulator map after the whole stream has been consumed. -/
def streamAccs (chunks : List StreamChunk) : List (Nat × ToolCallAcc) :=
  chunks.foldl applyChunkToolCalls []

/-- All tool-call fragments of a chunk sequence, in arrival order. -/
def allFragments : List StreamChunk → List ToolCallFragment
  | [] => []
  | c :: rest => c.tool_calls.getD [] ++ allFragments rest

/-- How one fragment transforms the `id` field of an accumulator:
a truthy `call.id` overwrites, anything else leaves it unchanged. -/
def idStep (cur : String) (call : ToolCallFragment) : String :=
  if truthyStr call.id then call.id.getD "" else cur

/-- The `id` an accumulator for index `i` ends up with after its
fragments (the fragments whose index is `i`, in arrival order): the
creation value of the first fragment, then `idStep` for every
fragment. -/
def idOfFragments (i : Nat) : List ToolCallFragment → String
  | [] => "tool_call_" ++ toString i
  | f :: rest => rest.foldl idStep (idStep (accCreate i f).id f)

/-! ## OAuth credentials and token refresh (src/auth.ts) -/

/-- The persisted credential record (`QwenCredentials`, src/types.ts). -/
structure QwenCredentials where
  accessToken : String
  refreshToken : String
  expiresAt : Int
  resourceUrl : Option String
  tokenType : Option String
deriving DecidableEq

/-- `TOKEN_REFRESH_BUFFER = 30 * 1000` (src/auth.ts line 22). -/
def TOKEN_REFRESH_BUFFER : Int := 30 * 1000

/-- A token-endpoint success payload (`QwenTokenResponse`, src/types.ts;
also the shape of `DeviceTokenSuccess` in src/auth.ts). -/
structure QwenTokenResponse where
  access_token : String
  refresh_token : Option String
  expires_in : Int
  token_type : String
  resource_url : Option String
deriving DecidableEq

/-- What the token endpoint answers to a refresh request: a parsed
success body, or a non-ok HTTP response with its status text. -/
inductive RefreshHttpResult where
  | ok (data : QwenTokenResponse)
  | httpError (statusText : String)
deriving DecidableEq

/-- The errors `getValidAccessToken` / `refreshAccessToken` throw, one
constructor per distinct `new Error(...)` site. -/
inductive AuthError where
  | noCredentials
  | emptyAccessToken
  | refreshFailed (statusText : String)
deriving DecidableEq

/-- The updated credential built from a refresh response
(src/auth.ts lines 157–165): the old refresh token is kept when
`data.refresh_token` is absent or falsy (`||`). -/
def refreshedCredentials (creds : QwenCredentials) (data : QwenTokenResponse)
    (now : Int) : QwenCredentials :=
  { accessToken := data.access_token,
    refreshToken :=
      match data.refresh_token with
      | some s => if s = "" then creds.refreshToken else s
      | none => creds.refreshToken,
    tokenType := some data.token_type,
    resourceUrl := data.resource_url,
    expiresAt := now + data.expires_in * 1000 }

/-- `refreshAccessToken` (src/auth.ts lines 133–172) with the network
round trip abstracted into `resp`; on a non-ok response it throws
`Token refresh failed: <statusText>`. -/
def refreshAccessToken (creds : QwenCredentials) (resp : RefreshHttpResult)
    (now : Int) : Except AuthError QwenCredentials :=
  match resp with
  | .httpError st => .error (.refreshFailed st)
  | .ok data => .ok (refreshedCredentials creds data now)

/-- Everything observable about one `getValidAccessToken` call: the
returned token or thrown error, `this.credentials` afterwards, the
argument of the `saveCredentials` call when one was made, and the
number of network calls to the token endpoint. -/
structure TokenRequestResult where
  outcome : Except AuthError String
  credentials : Option QwenCredentials
  saved : Option QwenCredentials
  refreshCalls : Nat

/-- `getValidAccessToken` (src/auth.ts lines 117–131): fail fast on a
missing credential or an empty/whitespace access token; refresh when
`expiresAt - now < TOKEN_REFRESH_BUFFER`; return the stored access
token.  The persistence layer is modelled as always accepting writes. -/
def getValidAccessToken (credentials : Option QwenCredentials) (now : Int)
    (resp : RefreshHttpResult) : TokenRequestResult :=
  match credentials with
  | none => ⟨.error .noCredentials, none, none, 0⟩
  | some c =>
    if c.accessToken = "" ∨ (jsTrim c.accessToken).length = 0 then
      ⟨.error .emptyAccessToken, some c, none, 0⟩
    else if c.expiresAt - now < TOKEN_REFRESH_BUFFER then
      match refreshAccessToken c resp now with
      | .error e => ⟨.error e, some c, none, 1⟩
      | .ok updated => ⟨.ok updated.accessToken, some updated, some updated, 1⟩
    else ⟨.ok c.accessToken, some c, none, 0⟩

/-! ## Device-flow polling loop (`startDeviceFlow`, src/auth.ts) -/

/-- A classified `pollDeviceToken` answer (src/auth.ts lines 309–347 and
the type guards at lines 51–67): pending (possibly with a slow-down
signal), an OAuth error payload, a success payload, or a body that is
none of these. -/
inductive DevicePollResponse where
  | pending (slowDown : Bool)
  | oauthError (error : String) (descr : Option String)
  | success (data : QwenTokenResponse)
  | malformed
deriving DecidableEq

/-- How one run of the polling loop ends, one constructor per exit of
`startDeviceFlow` (src/auth.ts lines 240–277).  `oracleExhausted` is a
model artifact marking that the supplied response list ran dry; no
theorem below ever reaches it. -/
inductive DeviceFlowOutcome where
  | authenticated (creds : QwenCredentials)
  | cancelled
  | loginFailed (error : String) (descr : Option String)
  | invalidResponse
  | timedOut
  | oracleExhausted
deriving DecidableEq

/-- Everything observable about one polling run: the outcome, the
interval of every executed sleep, in order, and the number of
`pollDeviceToken` network calls made. -/
structure DeviceFlowResult where
  outcome : DeviceFlowOutcome
  waits : List Nat
  polls : Nat
deriving DecidableEq

/-- The slow-down backoff (src/auth.ts line 248):
`Math.min(Math.floor(pollIntervalMs * 1.5), 10000)`. -/
def nextPollInterval (pollIntervalMs : Nat) : Nat :=
  min (pollIntervalMs * 3 / 2) 10000

/-- The `while` loop of `startDeviceFlow` (src/auth.ts lines 240–277).
The network oracle is `responses` (one answer per poll);
`cancelDuringSleep k` says whether the cancellation signal fires while
the loop is suspended in its `k`-th sleep (the source's cancellable
`sleep` then resolves early and the flag is observed at the top of the
next iteration).  Network calls take no model time and each sleep
advances the clock by its full interval — an interrupted sleep resolving
earlier only lowers the elapsed time, which no theorem below depends
on.  A `success` answer builds the credential exactly as lines 265–272
do (`refresh_token ?? ''`). -/
def deviceFlowLoop (responses : List DevicePollResponse)
    (cancelDuringSleep : Nat → Bool) (cancelled : Bool)
    (pollIntervalMs elapsed timeoutMs : Nat) (startTime : Int)
    (waits : List Nat) (polls : Nat) : DeviceFlowResult :=
  if timeoutMs ≤ elapsed then ⟨.timedOut, waits, polls⟩
  else if cancelled then ⟨.cancelled, waits, polls⟩
  else
    match responses with
    | [] => ⟨.oracleExhausted, waits, polls⟩
    | r :: rest =>
      match r with
      | .pending slowDown =>
        let interval :=
          if slowDown then nextPollInterval pollIntervalMs else pollIntervalMs
        let fired := cancelDuringSleep waits.length
        deviceFlowLoop rest cancelDuringSleep (cancelled || fired) interval
          (elapsed + interval) timeoutMs startTime (waits ++ [interval])
          (polls + 1)
      | .oauthError e d => ⟨.loginFailed e d, waits, polls + 1⟩
      | .success data =>
        ⟨.authenticated
          { accessToken := data.access_token,
            refreshToken := data.refresh_token.getD "",
            tokenType := some data.token_type,
            resourceUrl := data.resource_url,
            expiresAt := startTime + (elapsed : Int) + data.expires_in * 1000 },
         waits, polls + 1⟩
      | .malformed => ⟨.invalidResponse, waits, polls + 1⟩

/-- Run the polling loop from the state `startDeviceFlow` sets up at
lines 236–238: base interval 2000 ms, nothing elapsed, no sleeps, no
polls. -/
def startDeviceFlowPolling (responses : List DevicePollResponse)
    (cancelDuringSleep : Nat → Bool) (timeoutMs : Nat) (startTime : Int) :
    DeviceFlowResult :=
  deviceFlowLoop responses cancelDuringSleep false 2000 0 timeoutMs startTime [] 0

/-! ## Credential store and logout (src/auth.ts) -/

/-- The storage state `clearCredentials` acts on: whether a secret
vault was injected, the vault value under `SECRET_STORAGE_KEY`, the
contents of `~/.qwen/oauth_creds.json` (`none` = file missing), and the
in-memory `this.credentials`. -/
structure CredentialStoreState where
  vaultConfigured : Bool
  vault : Option String
  file : Option String
  credentials : Option QwenCredentials
deriving DecidableEq

/-- `clearCredentials` (src/auth.ts lines 181–194).  With a vault
configured it deletes only the vault entry (the file is never touched);
otherwise it unlinks the file.  `SecretStorage.delete` never rejects;
`fs.unlink` on a missing file rejects with ENOENT, which the `catch`
swallows — but the assignment `this.credentials = null` inside the
`try` is then skipped.  Every error is caught, so the call itself never
throws. -/
def clearCredentials (s : CredentialStoreState) : CredentialStoreState :=
  if s.vaultConfigured then
    { s with vault := none, credentials := none }
  else
    match s.file with
    | some _ => { s with file := none, credentials := none }
    | none => s

/-- `isAuthenticated` (src/auth.ts lines 196–202). -/
def isAuthenticated (credentials : Option QwenCredentials) : Bool :=
  match credentials with
  | none => false
  | some c => (jsTrim c.accessToken).length > 0

/-! ## Helper lemmas about the accumulator map -/

theorem mapGet_mapSet_self (m : List (Nat × ToolCallAcc)) (k : Nat)
    (v : ToolCallAcc) : mapGet (mapSet m k v) k = some v := by
  induction m with
  | nil => simp [mapGet, mapSet]
  | cons hd tl ih =>
    obtain ⟨k', v'⟩ := hd
    by_cases h : k' = k <;> simp [mapGet, mapSet, h, ih]

theorem mapGet_mapSet_ne (m : List (Nat × ToolCallAcc)) (k j : Nat)
    (v : ToolCallAcc) (h : k ≠ j) : mapGet (mapSet m k v) j = mapGet m j := by
  induction m with
  | nil => simp [mapGet, mapSet, h]
  | cons hd tl ih =>
    obtain ⟨k', v'⟩ := hd
    by_cases h' : k' = k
    · subst h'; simp [mapGet, mapSet, h]
    · simp [mapGet, mapSet, h', ih]

theorem mem_keys_mapSet (m : List (Nat × ToolCallAcc)) (k j : Nat)
    (v : ToolCallAcc) (h : j ∈ (mapSet m k v).map Prod.fst) :
    j ∈ m.map Prod.fst ∨ j = k := by
  induction m with
  | nil => simpa [mapSet] using h
  | cons hd tl ih =>
    obtain ⟨k', v'⟩ := hd
    by_cases h' : k' = k
    · subst h'
      simp only [mapSet, eq_self_iff_true, if_true, List.map_cons,
        List.mem_cons] at h ⊢
      tauto
    · simp only [mapSet, if_neg h', List.map_cons, List.mem_cons] at h ⊢
      rcases h with h | h
      · tauto
      · rcases ih h with h'' | h'' <;> tauto

theorem nodup_keys_mapSet (m : List (Nat × ToolCallAcc)) (k : Nat)
    (v : ToolCallAcc) (h : (m.map Prod.fst).Nodup) :
    ((mapSet m k v).map Prod.fst).Nodup := by
  induction m with
  | nil => simp [mapSet]
  | cons hd tl ih =>
    obtain ⟨k', v'⟩ := hd
    simp only [List.map_cons, List.nodup_cons] at h
    by_cases h' : k' = k
    · subst h'
      simpa [mapSet] using h
    · simp only [mapSet, if_neg h', List.map_cons, List.nodup_cons]
      refine ⟨fun hmem => ?_, ih h.2⟩
      rcases mem_keys_mapSet tl k k' v hmem with h'' | h''
      · exact h.1 h''
      · exact h' h''

theorem mem_of_mapGet_eq_some (m : List (Nat × ToolCallAcc)) (k : Nat)
    (a : ToolCallAcc) (h : mapGet m k = some a) : (k, a) ∈ m := by
  induction m with
  | nil => simp [mapGet] at h
  | cons hd tl ih =>
    obtain ⟨k', v'⟩ := hd
    by_cases h' : k' = k
    · subst h'
      simp only [mapGet, if_true, eq_self_iff_true, Option.some.injEq] at h
      subst h
      exact List.mem_cons_self ..
    · simp only [mapGet, if_neg h'] at h
      exact List.mem_cons_of_mem _ (ih h)

theorem mapGet_eq_some_of_mem (m : List (Nat × ToolCallAcc)) (k : Nat)
    (a : ToolCallAcc) (hnd : (m.map Prod.fst).Nodup) (h : (k, a) ∈ m) :
    mapGet m k = some a := by
  induction m with
  | nil => simp at h
  | cons hd tl ih =>
    obtain ⟨k', v'⟩ := hd
    simp only [List.map_cons, List.nodup_cons] at hnd
    rcases List.mem_cons.mp h with h | h
    · cases h
      simp [mapGet]
    · have hk : k' ≠ k := by
        rintro rfl
        exact hnd.1 (by simpa using List.mem_map_of_mem Prod.fst h)
      simp [mapGet, hk, ih hnd.2 h]

/-! ## Helper lemmas about the stream run -/

theorem runStream_eq (chunks : List StreamChunk) (m : List (Nat × ToolCallAcc)) :
    runStream chunks m = (textEventsOf chunks, chunks.foldl applyChunkToolCalls m) := by
  induction chunks generalizing m with
  | nil => rfl
  | cons c rest ih => simp [runStream, textEventsOf, ih]

theorem streamChatCompletion_eq (chunks : List StreamChunk) :
    streamChatCompletion chunks =
      textEventsOf chunks ++ finalizeToolCalls (streamAccs chunks) := by
  simp [streamChatCompletion, runStream_eq, streamAccs]

theorem foldl_applyChunkToolCalls (chunks : List StreamChunk)
    (m : List (Nat × ToolCallAcc)) :
    chunks.foldl applyChunkToolCalls m = (allFragments chunks).foldl applyFragment m := by
  induction chunks generalizing m with
  | nil => rfl
  | cons c rest ih =>
    cases h : c.tool_calls <;>
      simp [allFragments, applyChunkToolCalls, h, List.foldl_append, ih]

theorem nodup_keys_foldl_applyFragment (fs : List ToolCallFragment)
    (m : List (Nat × ToolCallAcc)) (h : (m.map Prod.fst).Nodup) :
    (((fs.foldl applyFragment m)).map Prod.fst).Nodup := by
  induction fs generalizing m with
  | nil => exact h
  | cons f rest ih =>
    exact ih _ (nodup_keys_mapSet _ _ _ h)

theorem streamAccs_keys_nodup (chunks : List StreamChunk) :
    ((streamAccs chunks).map Prod.fst).Nodup := by
  rw [streamAccs, foldl_applyChunkToolCalls]
  exact nodup_keys_foldl_applyFragment _ _ (by simp)

/-- How one fragment transforms the (possibly not yet existing)
accumulator of its own index: create it if absent, then apply the
conditional updates. -/
def accStep (i : Nat) (o : Option ToolCallAcc) (call : ToolCallFragment) :
    ToolCallAcc :=
  accUpdate (match o with | some e => e | none => accCreate i call) call

theorem mapGet_foldl_applyFragment (fs : List ToolCallFragment)
    (m : List (Nat × ToolCallAcc)) (k : Nat) :
    mapGet (fs.foldl applyFragment m) k =
      fs.foldl (fun o f => if fragIndex f = k then some (accStep k o f) else o)
        (mapGet m k) := by
  induction fs generalizing m with
  | nil => rfl
  | cons f rest ih =>
    simp only [List.foldl_cons, ih]
    congr 1
    by_cases h : fragIndex f = k
    · subst h
      simp [applyFragment, accStep, mapGet_mapSet_self]
    · simp [applyFragment, accStep, h, mapGet_mapSet_ne _ _ _ _ h]

theorem optFold_filter (fs : List ToolCallFragment) (k : Nat)
    (o : Option ToolCallAcc) :
    fs.foldl (fun o f => if fragIndex f = k then some (accStep k o f) else o) o =
      (fs.filter (fun f => fragIndex f = k)).foldl
        (fun o f => some (accStep k o f)) o := by
  induction fs generalizing o with
  | nil => rfl
  | cons f rest ih =>
    by_cases h : fragIndex f = k <;>
      simp [List.filter_cons, h, ih]

theorem optFold_some (gs : List ToolCallFragment) (k : Nat) (a : ToolCallAcc) :
    gs.foldl (fun o f => some (accStep k o f)) (some a) =
      some (gs.foldl accUpdate a) := by
  induction gs generalizing a with
  | nil => rfl
  | cons f rest ih =>
    simp only [List.foldl_cons]
    rw [show accStep k (some a) f = accUpdate a f from rfl, ih]

theorem accUpdate_id (a : ToolCallAcc) (call : ToolCallFragment) :
    (accUpdate a call).id = idStep a.id call := by
  simp only [accUpdate, idStep]
  by_cases h1 : truthyStr call.id <;>
    by_cases h2 : truthyStr call.name <;>
      by_cases h3 : truthyStr call.arguments <;>
        simp [h1, h2, h3]

theorem foldl_accUpdate_id (gs : List ToolCallFragment) (a : ToolCallAcc) :
    (gs.foldl accUpdate a).id = gs.foldl idStep a.id := by
  induction gs generalizing a with
  | nil => rfl
  | cons f rest ih => simp [ih, accUpdate_id]

/-- The characterization of every accumulator's `id` field: it is
`idOfFragments` of the fragments that arrived for its index. -/
theorem streamAccs_id (chunks : List StreamChunk) (k : Nat) (acc : ToolCallAcc)
    (h : mapGet (streamAccs chunks) k = some acc) :
    acc.id = idOfFragments k
      ((allFragments chunks).filter (fun f => fragIndex f = k)) := by
  rw [streamAccs, foldl_applyChunkToolCalls, mapGet_foldl_applyFragment,
    optFold_filter] at h
  simp only [mapGet] at h
  cases hf : (allFragments chunks).filter (fun f => fragIndex f = k) with
  | nil => rw [hf] at h; simp at h
  | cons f gs =>
    rw [hf] at h
    simp only [List.foldl_cons, optFold_some, Option.some.injEq] at h
    subst h
    rw [idOfFragments, foldl_accUpdate_id,
      show (accStep k none f).id = idStep (accCreate k f).id f from
        accUpdate_id (accCreate k f) f]

/-! ## Helper lemmas about the ordering of finalized tool calls -/

instance : IsTotal (Nat × ToolCallAcc) (fun a b => a.1 ≤ b.1) :=
  ⟨fun a b => Nat.le_total a.1 b.1⟩

instance : IsTrans (Nat × ToolCallAcc) (fun a b => a.1 ≤ b.1) :=
  ⟨fun _ _ _ h h' => Nat.le_trans h h'⟩

theorem sortByIndex_perm (m : List (Nat × ToolCallAcc)) :
    (sortByIndex m).Perm m :=
  List.perm_insertionSort _ m

theorem sortByIndex_strictSorted (m : List (Nat × ToolCallAcc))
    (h : (m.map Prod.fst).Nodup) :
    (sortByIndex m).Pairwise (fun a b => a.1 < b.1) := by
  have hsorted : (sortByIndex m).Pairwise (fun a b => a.1 ≤ b.1) :=
    List.sorted_insertionSort _ m
  have hnd : ((sortByIndex m).map Prod.fst).Nodup :=
    ((sortByIndex_perm m).map Prod.fst).symm.nodup h
  have hne : (sortByIndex m).Pairwise (fun a b => a.1 ≠ b.1) :=
    List.pairwise_map.mp hnd
  exact (hsorted.and hne).imp (fun h => Nat.lt_of_le_of_ne h.1 h.2)

/-! ## Helper lemmas about accumulator ids -/

theorem foldl_idStep_of_not_truthy (gs : List ToolCallFragment) (cur : String)
    (h : ∀ f ∈ gs, truthyStr f.id = false) : gs.foldl idStep cur = cur := by
  induction gs generalizing cur with
  | nil => rfl
  | cons f rest ih =>
    rw [List.foldl_cons,
      show idStep cur f = cur by simp [idStep, h f (List.mem_cons_self ..)]]
    exact ih _ fun g hg => h g (List.mem_cons_of_mem _ hg)

theorem idStep_ne_empty (cur : String) (f : ToolCallFragment)
    (hcur : cur ≠ "") : idStep cur f ≠ "" := by
  by_cases ht : truthyStr f.id
  · cases hid : f.id with
    | none => rw [hid] at ht; simp [truthyStr] at ht
    | some s =>
      rw [hid] at ht
      simp only [truthyStr, bne_iff_ne, ne_eq] at ht
      simp [idStep, truthyStr, hid, ht]
  · simpa [idStep, ht] using hcur

theorem foldl_idStep_ne_empty (gs : List ToolCallFragment) (cur : String)
    (hcur : cur ≠ "") (h : ∀ f ∈ gs, f.id ≠ some "") :
    gs.foldl idStep cur ≠ "" := by
  induction gs generalizing cur with
  | nil => exact hcur
  | cons f rest ih =>
    rw [List.foldl_cons]
    exact ih _ (idStep_ne_empty cur f hcur)
      fun g hg => h g (List.mem_cons_of_mem _ hg)

theorem toolCallDefault_ne_empty (i : Nat) :
    ("tool_call_" ++ toString i) ≠ "" := by
  intro hcontra
  have hlen := congrArg String.length hcontra
  rw [String.length_append] at hlen
  have h10 : ("tool_call_" : String).length = 10 := rfl
  have h0 : ("" : String).length = 0 := rfl
  omega

theorem accCreate_id_ne_empty (i : Nat) (f : ToolCallFragment)
    (hf : f.id ≠ some "") : (accCreate i f).id ≠ "" := by
  cases hid : f.id with
  | none => simpa [accCreate, hid] using toolCallDefault_ne_empty i
  | some s =>
    rw [hid] at hf
    simpa [accCreate, hid] using fun hs => hf (by rw [hs])

theorem idOfFragments_ne_empty (k : Nat) (gs : List ToolCallFragment)
    (h : ∀ f ∈ gs, f.id ≠ some "") : idOfFragments k gs ≠ "" := by
  cases gs with
  | nil => exact toolCallDefault_ne_empty k
  | cons f rest =>
    rw [idOfFragments]
    exact foldl_idStep_ne_empty _ _
      (idStep_ne_empty _ f
        (accCreate_id_ne_empty k f (h f (List.mem_cons_self ..))))
      fun g hg => h g (List.mem_cons_of_mem _ hg)

theorem idOfFragments_last_truthy (k : Nat) (l₁ l₂ : List ToolCallFragment)
    (f : ToolCallFragment) (hf : truthyStr f.id = true)
    (h₂ : ∀ g ∈ l₂, truthyStr g.id = false) :
    idOfFragments k (l₁ ++ f :: l₂) = f.id.getD "" := by
  cases l₁ with
  | nil =>
    rw [List.nil_append, idOfFragments,
      show idStep (accCreate k f).id f = f.id.getD "" by simp [idStep, hf]]
    exact foldl_idStep_of_not_truthy _ _ h₂
  | cons g gs =>
    rw [List.cons_append, idOfFragments, List.foldl_append, List.foldl_cons,
      show ∀ cur, idStep cur f = f.id.getD "" from fun cur => by
        simp [idStep, hf]]
    exact foldl_idStep_of_not_truthy _ _ h₂

theorem idOfFragments_no_id (k : Nat) (gs : List ToolCallFragment)
    (h : ∀ f ∈ gs, f.id = none) :
    idOfFragments k gs = "tool_call_" ++ toString k := by
  cases gs with
  | nil => rfl
  | cons f rest =>
    rw [idOfFragments,
      show idStep (accCreate k f).id f = "tool_call_" ++ toString k by
        simp [idStep, truthyStr, h f (List.mem_cons_self ..), accCreate]]
    exact foldl_idStep_of_not_truthy _ _
      fun g hg => by simp [truthyStr, h g (List.mem_cons_of_mem _ hg)]

/-- Every finalized event is the `tool_call` event of its accumulator:
the `callId` is the accumulator's `id` and the name defaults to
`"tool"`. -/
theorem finalizeAcc_shape (a : ToolCallAcc) :
    ∃ inp, finalizeAcc a = .toolCall a.id (a.name.getD "tool") inp :=
  ⟨_, rfl⟩

theorem finalizeToolCalls_mem (m : List (Nat × ToolCallAcc))
    (e : QwenStreamEvent) (hnd : (m.map Prod.fst).Nodup)
    (he : e ∈ finalizeToolCalls m) :
    ∃ k a, mapGet m k = some a ∧ e = finalizeAcc a := by
  rw [finalizeToolCalls] at he
  by_cases hm : m.length > 0
  · rw [if_pos hm] at he
    obtain ⟨kv, hkv, rfl⟩ := List.mem_map.mp he
    have hmem : kv ∈ m := (sortByIndex_perm m).subset hkv
    exact ⟨kv.1, kv.2,
      mapGet_eq_some_of_mem _ _ _ hnd (by simpa using hmem), rfl⟩
  · rw [if_neg hm] at he
    simp at he

/-! ## Helper lemmas about the device polling loop -/

theorem nextPollInterval_le (i : Nat) : nextPollInterval i ≤ 10000 :=
  Nat.min_le_right _ _

/-- Once the cancellation flag is observed set (and the window has not
elapsed), the loop exits with the cancellation outcome at once: no
further poll and no further wait happen. -/
theorem deviceFlowLoop_of_cancelled (responses : List DevicePollResponse)
    (cds : Nat → Bool) (i e t : Nat) (st : Int) (w : List Nat) (p : Nat)
    (he : e < t) :
    deviceFlowLoop responses cds true i e t st w p = ⟨.cancelled, w, p⟩ := by
  rw [deviceFlowLoop.eq_def]
  simp [Nat.not_le.mpr he]

/-- One non-cancelled iteration on a pending answer: poll once, adjust
the interval on a slow-down signal, sleep for the interval (during
which the cancellation signal may fire), and continue. -/
theorem deviceFlowLoop_pending_step (rest : List DevicePollResponse)
    (cds : Nat → Bool) (slow : Bool) (i e t : Nat) (st : Int)
    (w : List Nat) (p : Nat) (he : e < t) :
    deviceFlowLoop (.pending slow :: rest) cds false i e t st w p =
      deviceFlowLoop rest cds (cds w.length)
        (if slow then nextPollInterval i else i)
        (e + (if slow then nextPollInterval i else i)) t st
        (w ++ [if slow then nextPollInterval i else i]) (p + 1) := by
  rw [deviceFlowLoop.eq_def]
  simp [Nat.not_le.mpr he]

theorem deviceFlowLoop_waits_le (responses : List DevicePollResponse)
    (cds : Nat → Bool) (c : Bool) (i e t : Nat) (st : Int)
    (w : List Nat) (p : Nat) (hi : i ≤ 10000) (hw : ∀ x ∈ w, x ≤ 10000) :
    ∀ x ∈ (deviceFlowLoop responses cds c i e t st w p).waits, x ≤ 10000 := by
  induction responses generalizing c i e w p with
  | nil =>
    intro x hx
    rw [deviceFlowLoop.eq_def] at hx
    split at hx
    · exact hw x hx
    · split at hx
      · exact hw x hx
      · exact hw x hx
  | cons r rest ih =>
    intro x hx
    rw [deviceFlowLoop.eq_def] at hx
    split at hx
    · exact hw x hx
    · split at hx
      · exact hw x hx
      · cases r with
        | pending slow =>
          refine ih _ _ _ _ _ ?_ ?_ x hx
          · cases slow with
            | true => simpa using nextPollInterval_le i
            | false => simpa using hi
          · intro y hy
            rcases List.mem_append.mp hy with hy | hy
            · exact hw y hy
            · cases slow with
              | true =>
                simp only [List.mem_singleton] at hy
                subst hy
                simpa using nextPollInterval_le i
              | false =>
                simp only [List.mem_singleton] at hy
                subst hy
                simpa using hi
        | oauthError err d => exact hw x hx
        | success data => exact hw x hx
        | malformed => exact hw x hx

theorem textEventsOf_text (chunks : List StreamChunk) :
    ∀ e ∈ textEventsOf chunks, ∃ s, e = QwenStreamEvent.text s := by
  induction chunks with
  | nil => intro e he; simp [textEventsOf] at he
  | cons c rest ih =>
    intro e he
    rw [textEventsOf] at he
    rcases List.mem_append.mp he with he | he
    · rcases hc : c.content with _ | s
      · simp [chunkTextEvents, hc] at he
      · simp only [chunkTextEvents, hc] at he
        by_cases hs : s != ""
        · rw [if_pos hs] at he
          simp only [List.mem_singleton] at he
          exact ⟨s, he⟩
        · rw [if_neg hs] at he; simp at he
    · exact ih e he

theorem finalizeToolCalls_eq_map (m : List (Nat × ToolCallAcc)) :
    finalizeToolCalls m = (sortByIndex m).map (fun kv => finalizeAcc kv.2) := by
  rw [finalizeToolCalls]
  by_cases hm : m.length > 0
  · rw [if_pos hm]
  · rw [if_neg hm]
    have hnil : m = [] := List.length_eq_zero.mp (Nat.eq_zero_of_not_pos hm)
    subst hnil
    rfl

/-! ## The claims -/

/-- Claim C1: fragments arriving for the same tool-call index are merged
with last-writer-wins semantics for `id` and `name` (a fragment carrying
a truthy value overwrites the field) and append-only concatenation for
`arguments`; on the input delta sequence
`[(index 0, args "\x7b\"a\":"), (index 0, args "1\x7d"),
(index 0, name "foo")]` followed by stream end, `streamChatCompletion`
yields exactly one `tool_call` event with name `"foo"` and input
`a: 1`. -/
theorem C1_fragment_merge :
    (∀ (m : List (Nat × ToolCallAcc)) (call : ToolCallFragment)
        (old : ToolCallAcc),
      mapGet m (fragIndex call) = some old →
      mapGet (applyFragment m call) (fragIndex call) = some
        { id := if truthyStr call.id then call.id.getD "" else old.id,
          name := if truthyStr call.name then call.name else old.name,
          arguments :=
            if truthyStr call.arguments then
              old.arguments ++ call.arguments.getD ""
            else old.arguments })
    ∧ streamChatCompletion
        [⟨none, some [⟨some 0, none, none, some "\x7b\"a\":"⟩]⟩,
         ⟨none, some [⟨some 0, none, none, some "1\x7d"⟩]⟩,
         ⟨none, some [⟨some 0, none, some "foo", none⟩]⟩] =
      [.toolCall "tool_call_0" "foo" (.obj [("a", .num 1)])] := by
  constructor
  · intro m call old h
    simp only [applyFragment, h, mapGet_mapSet_self]
    congr 1
    simp only [accUpdate]
    by_cases h1 : truthyStr call.id <;> by_cases h2 : truthyStr call.name <;>
      by_cases h3 : truthyStr call.arguments <;> simp [h1, h2, h3]
  · rfl

theorem C1_fragment_merge_witness :
    mapGet [(0, ToolCallAcc.mk "idA" none "x")] 0 =
      some ⟨"idA", none, "x"⟩ ∧
    mapGet (applyFragment [(0, ⟨"idA", none, "x"⟩)]
        ⟨some 0, some "idB", some "nm", some "y"⟩) 0 =
      some ⟨"idB", some "nm", "xy"⟩ :=
  ⟨rfl,
   C1_fragment_merge.1 [(0, ⟨"idA", none, "x"⟩)]
     ⟨some 0, some "idB", some "nm", some "y"⟩ ⟨"idA", none, "x"⟩ rfl⟩

/-- Claim C2: for every delta sequence, `streamChatCompletion` emits all
text events in stream arrival order while the deltas are consumed and no
`tool_call` event before the stream is fully drained; after stream end,
the `tool_call` events follow in ascending accumulator-index order
regardless of fragment arrival order. -/
theorem C2_event_ordering (chunks : List StreamChunk) :
    streamChatCompletion chunks =
      textEventsOf chunks ++ finalizeToolCalls (streamAccs chunks)
    ∧ (∀ e ∈ textEventsOf chunks, ∃ s, e = QwenStreamEvent.text s)
    ∧ finalizeToolCalls (streamAccs chunks) =
        (sortByIndex (streamAccs chunks)).map (fun kv => finalizeAcc kv.2)
    ∧ (sortByIndex (streamAccs chunks)).Pairwise (fun a b => a.1 < b.1)
    ∧ (∀ e ∈ finalizeToolCalls (streamAccs chunks),
        ∃ cid nm inp, e = QwenStreamEvent.toolCall cid nm inp) := by
  refine ⟨streamChatCompletion_eq chunks, textEventsOf_text chunks,
    finalizeToolCalls_eq_map _, sortByIndex_strictSorted _
      (streamAccs_keys_nodup chunks), ?_⟩
  intro e he
  obtain ⟨k, a, _, rfl⟩ :=
    finalizeToolCalls_mem _ e (streamAccs_keys_nodup chunks) he
  obtain ⟨inp, hshape⟩ := finalizeAcc_shape a
  exact ⟨a.id, a.name.getD "tool", inp, hshape⟩

theorem C2_event_ordering_witness :
    ∃ s, QwenStreamEvent.text "hi" = QwenStreamEvent.text s :=
  (C2_event_ordering [⟨some "hi", none⟩]).2.1 (.text "hi")
    (by rw [show textEventsOf [⟨some "hi", none⟩] =
          [QwenStreamEvent.text "hi"] from rfl]
        exact List.mem_singleton.mpr rfl)

/-- Claim C5: when a finalized accumulator's argument buffer fails to
parse as JSON, `streamChatCompletion` emits a `tool_call` event whose
input carries the raw unparsed string under the sentinel key `_raw`
instead of throwing, and an accumulator whose name was never set yields
the placeholder name `"tool"`; neither case aborts the stream. -/
theorem C5_parse_fallback :
    (∀ call : ToolCallAcc, (jsTrim call.arguments).length > 0 →
      jsonParse call.arguments = none →
      finalizeAcc call = .toolCall call.id (call.name.getD "tool")
        (.obj [("_raw", .str call.arguments)]))
    ∧ (∀ call : ToolCallAcc, call.name = none →
        ∃ inp, finalizeAcc call = .toolCall call.id "tool" inp)
    ∧ streamChatCompletion
        [⟨none, some [⟨some 0, some "id1", some "bar", some "\x7bnot json"⟩]⟩] =
      [.toolCall "id1" "bar" (.obj [("_raw", .str "\x7bnot json")])] := by
  refine ⟨?_, ?_, rfl⟩
  · intro call hlen hparse
    simp only [finalizeAcc, hparse, if_pos hlen]
  · intro call hname
    exact ⟨_, by simp only [finalizeAcc, hname]; rfl⟩

theorem C5_parse_fallback_witness :
    (jsTrim "\x7bnot json").length > 0 ∧
    finalizeAcc ⟨"i", some "n", "\x7bnot json"⟩ =
      .toolCall "i" "n" (.obj [("_raw", .str "\x7bnot json")]) :=
  ⟨by decide,
   C5_parse_fallback.1 ⟨"i", some "n", "\x7bnot json"⟩ (by decide) rfl⟩

/-- Claim C3: in the device polling loop a slow-down signal multiplies
the current interval by 1.5 (floored) capped at 10000 ms, starting from
the base interval 2000 ms, while a plain pending response keeps the
loop alive without changing the interval; with a server answering
pending three times then success, the loop performs exactly three waits
before returning the token, and the interval never exceeds 10000 ms
however many slow-down signals arrive. -/
theorem C3_device_backoff :
    startDeviceFlowPolling
      [.pending false, .pending false, .pending false,
       .success ⟨"acc", some "ref", 3600, "Bearer", none⟩]
      (fun _ => false) 60000 0 =
    ⟨.authenticated ⟨"acc", "ref", 3606000, none, some "Bearer"⟩,
     [2000, 2000, 2000], 4⟩
    ∧ (∀ i, nextPollInterval i = min (i * 3 / 2) 10000)
    ∧ (∀ responses cds t st, startDeviceFlowPolling responses cds t st =
        deviceFlowLoop responses cds false 2000 0 t st [] 0)
    ∧ (∀ rest cds (i e t : Nat) st w p, e < t →
        deviceFlowLoop (.pending false :: rest) cds false i e t st w p =
          deviceFlowLoop rest cds (cds w.length) i (e + i) t st
            (w ++ [i]) (p + 1))
    ∧ (∀ rest cds (i e t : Nat) st w p, e < t →
        deviceFlowLoop (.pending true :: rest) cds false i e t st w p =
          deviceFlowLoop rest cds (cds w.length) (nextPollInterval i)
            (e + nextPollInterval i) t st (w ++ [nextPollInterval i]) (p + 1))
    ∧ (∀ responses cds t st,
        ∀ x ∈ (startDeviceFlowPolling responses cds t st).waits, x ≤ 10000) := by
  refine ⟨by decide, fun i => rfl, fun responses cds t st => rfl, ?_, ?_, ?_⟩
  · intro rest cds i e t st w p he
    simpa using deviceFlowLoop_pending_step rest cds false i e t st w p he
  · intro rest cds i e t st w p he
    simpa using deviceFlowLoop_pending_step rest cds true i e t st w p he
  · intro responses cds t st
    exact deviceFlowLoop_waits_le responses cds false 2000 0 t st [] 0
      (by decide) (by simp)

theorem C3_device_backoff_witness :
    startDeviceFlowPolling
        [.pending true, .pending true, .pending true, .pending true,
         .pending true, .pending false]
        (fun _ => false) 100000 0 =
      ⟨.oracleExhausted, [3000, 4500, 6750, 10000, 10000, 10000], 6⟩ ∧
    (∀ x ∈ (startDeviceFlowPolling
        [.pending true, .pending true, .pending true, .pending true,
         .pending true, .pending false]
        (fun _ => false) 100000 0).waits, x ≤ 10000) :=
  ⟨by decide,
   C3_device_backoff.2.2.2.2.2
     [.pending true, .pending true, .pending true, .pending true,
      .pending true, .pending false]
     (fun _ => false) 100000 0⟩

/-- Claim C4: `getValidAccessToken` triggers a token refresh if and only
if `expiresAt - now < 30000` at the time of the call; at or above the
30000 ms boundary no refresh happens and the stored token is returned,
below the boundary a refresh happens before the access token is
returned. -/
theorem C4_refresh_boundary (c : QwenCredentials) (now : Int)
    (resp : RefreshHttpResult)
    (hne : ¬(c.accessToken = "" ∨ (jsTrim c.accessToken).length = 0)) :
    ((getValidAccessToken (some c) now resp).refreshCalls = 1 ↔
      c.expiresAt - now < 30000)
    ∧ ((getValidAccessToken (some c) now resp).refreshCalls = 0 ↔
      ¬(c.expiresAt - now < 30000))
    ∧ (30000 ≤ c.expiresAt - now →
        getValidAccessToken (some c) now resp =
          ⟨.ok c.accessToken, some c, none, 0⟩)
    ∧ (∀ data, resp = .ok data → c.expiresAt - now < 30000 →
        (getValidAccessToken (some c) now resp).outcome =
          .ok (refreshedCredentials c data now).accessToken) := by
  have hbuf : TOKEN_REFRESH_BUFFER = (30000 : Int) := by decide
  by_cases hexp : c.expiresAt - now < 30000
  · have hx : getValidAccessToken (some c) now resp =
        (match refreshAccessToken c resp now with
         | .error e => ⟨.error e, some c, none, 1⟩
         | .ok updated =>
            ⟨.ok updated.accessToken, some updated, some updated, 1⟩) := by
      simp only [getValidAccessToken, if_neg hne, hbuf, if_pos hexp]
    have h1 : (getValidAccessToken (some c) now resp).refreshCalls = 1 := by
      rw [hx]; cases resp <;> rfl
    refine ⟨iff_of_true h1 hexp, ?_, ?_, ?_⟩
    · exact iff_of_false (by rw [h1]; decide) fun hh => hh hexp
    · intro hle; exact absurd hexp (not_lt.mpr hle)
    · intro data hresp _
      subst hresp
      rw [hx]
      rfl
  · have hx : getValidAccessToken (some c) now resp =
        ⟨.ok c.accessToken, some c, none, 0⟩ := by
      simp only [getValidAccessToken, if_neg hne, hbuf, if_neg hexp]
    refine ⟨?_, ?_, fun _ => hx, ?_⟩
    · rw [hx]; exact iff_of_false (by simp) hexp
    · rw [hx]; exact iff_of_true rfl hexp
    · intro data hresp hlt; exact absurd hlt hexp

theorem C4_refresh_boundary_witness :
    getValidAccessToken (some ⟨"tok", "r", 30000, none, none⟩) 0
        (.httpError "x") =
      ⟨.ok "tok", some ⟨"tok", "r", 30000, none, none⟩, none, 0⟩ ∧
    (getValidAccessToken (some ⟨"tok", "r", 29999, none, none⟩) 0
        (.httpError "x")).refreshCalls = 1 :=
  ⟨(C4_refresh_boundary ⟨"tok", "r", 30000, none, none⟩ 0 (.httpError "x")
      (by decide)).2.2.1 (by decide),
   ((C4_refresh_boundary ⟨"tok", "r", 29999, none, none⟩ 0 (.httpError "x")
      (by decide)).1).mpr (by decide)⟩

/-- Claim C6: calling `getValidAccessToken` with no stored credential,
or with an empty or whitespace-only access token, throws immediately
with a distinct error for each case and performs no network call. -/
theorem C6_fail_fast :
    (∀ (now : Int) (resp : RefreshHttpResult),
      getValidAccessToken none now resp =
        ⟨.error .noCredentials, none, none, 0⟩)
    ∧ (∀ (c : QwenCredentials) (now : Int) (resp : RefreshHttpResult),
        (jsTrim c.accessToken).length = 0 →
        getValidAccessToken (some c) now resp =
          ⟨.error .emptyAccessToken, some c, none, 0⟩)
    ∧ AuthError.noCredentials ≠ AuthError.emptyAccessToken := by
  refine ⟨fun now resp => rfl, ?_, by decide⟩
  intro c now resp h
  simp only [getValidAccessToken, if_pos (Or.inr h)]

theorem C6_fail_fast_witness :
    (jsTrim "   ").length = 0 ∧
    getValidAccessToken (some ⟨"   ", "r", 0, none, none⟩) 5 (.httpError "x") =
      ⟨.error .emptyAccessToken, some ⟨"   ", "r", 0, none, none⟩, none, 0⟩ :=
  ⟨by decide,
   C6_fail_fast.2.1 ⟨"   ", "r", 0, none, none⟩ 5 (.httpError "x") (by decide)⟩

/-- Claim C7: a successful token refresh builds the updated credential
from the token response, preserves the previously stored refresh token
whenever the server omits (or supplies an empty) `refresh_token`, and
persists the updated credential via `saveCredentials` before
`getValidAccessToken` returns. -/
theorem C7_refresh_persists (c : QwenCredentials) (now : Int)
    (data : QwenTokenResponse)
    (hne : ¬(c.accessToken = "" ∨ (jsTrim c.accessToken).length = 0))
    (hexp : c.expiresAt - now < TOKEN_REFRESH_BUFFER) :
    getValidAccessToken (some c) now (.ok data) =
      ⟨.ok (refreshedCredentials c data now).accessToken,
       some (refreshedCredentials c data now),
       some (refreshedCredentials c data now), 1⟩
    ∧ (refreshedCredentials c data now).accessToken = data.access_token
    ∧ ((data.refresh_token = none ∨ data.refresh_token = some "") →
        (refreshedCredentials c data now).refreshToken = c.refreshToken)
    ∧ (∀ s, data.refresh_token = some s → s ≠ "" →
        (refreshedCredentials c data now).refreshToken = s) := by
  refine ⟨?_, rfl, ?_, ?_⟩
  · simp only [getValidAccessToken, if_neg hne, if_pos hexp, refreshAccessToken]
  · rintro (h | h) <;> simp [refreshedCredentials, h]
  · intro s hs hns
    simp [refreshedCredentials, hs, hns]

theorem C7_refresh_persists_witness :
    (refreshedCredentials ⟨"tok", "oldrt", 0, none, none⟩
        ⟨"newtok", none, 3600, "Bearer", none⟩ 0).refreshToken = "oldrt" ∧
    getValidAccessToken (some ⟨"tok", "oldrt", 0, none, none⟩) 0
        (.ok ⟨"newtok", none, 3600, "Bearer", none⟩) =
      ⟨.ok "newtok", some ⟨"newtok", "oldrt", 3600000, none, some "Bearer"⟩,
       some ⟨"newtok", "oldrt", 3600000, none, some "Bearer"⟩, 1⟩ :=
  ⟨(C7_refresh_persists ⟨"tok", "oldrt", 0, none, none⟩ 0
      ⟨"newtok", none, 3600, "Bearer", none⟩ (by decide) (by decide)).2.2.1
      (Or.inl rfl),
   (C7_refresh_persists ⟨"tok", "oldrt", 0, none, none⟩ 0
      ⟨"newtok", none, 3600, "Bearer", none⟩ (by decide) (by decide)).1⟩

/-- Claim C8: a cancellation signal fired while the polling loop is
suspended in its interval wait aborts the loop with the
cancellation-specific outcome before the next network call is made
(the poll count stays at the polls already made plus the one that
returned pending), and this outcome is distinct from the timeout
outcome. -/
theorem C8_cancellation (rest : List DevicePollResponse) (cds : Nat → Bool)
    (slow : Bool) (i e t : Nat) (st : Int) (w : List Nat) (p : Nat)
    (hfire : cds w.length = true) (he : e < t)
    (he' : e + (if slow then nextPollInterval i else i) < t) :
    deviceFlowLoop (.pending slow :: rest) cds false i e t st w p =
      ⟨.cancelled, w ++ [if slow then nextPollInterval i else i], p + 1⟩
    ∧ DeviceFlowOutcome.cancelled ≠ DeviceFlowOutcome.timedOut := by
  refine ⟨?_, by decide⟩
  rw [deviceFlowLoop_pending_step rest cds slow i e t st w p he, hfire]
  exact deviceFlowLoop_of_cancelled rest cds _ _ t st _ (p + 1) he'

theorem C8_cancellation_witness :
    deviceFlowLoop [.pending false, .pending false] (fun _ => true) false
        2000 0 60000 0 [] 0 =
      ⟨.cancelled, [2000], 1⟩ :=
  (C8_cancellation [.pending false] (fun _ => true) false 2000 0 60000 0 [] 0
    rfl (by decide) (by decide)).1

/-- Claim C9 (counterexample): with a secret vault configured and a
credential file present, `clearCredentials` deletes only the vault
entry — the credential file survives untouched, refuting "clears both
the vault entry (if one is present) and the credential file (if one is
present)". -/
theorem C9_counterexample :
    clearCredentials
        ⟨true, some "cred", some "cred", some ⟨"tok", "r", 0, none, none⟩⟩ =
      ⟨true, none, some "cred", none⟩ := rfl

/-- Claim C9 (amended): logout clears the vault entry when a vault is
configured (leaving any credential file untouched) and otherwise
deletes the credential file if present; whenever a vault is configured
or a credential file exists, `isAuthenticated()` is false afterwards;
the call never throws, and it is idempotent: clearing twice equals
clearing once, and clearing when no record exists is not an error. -/
theorem C9_amended :
    (∀ s : CredentialStoreState, s.vaultConfigured = true →
      clearCredentials s = { s with vault := none, credentials := none })
    ∧ (∀ (s : CredentialStoreState) (v : String), s.vaultConfigured = false →
        s.file = some v →
        clearCredentials s = { s with file := none, credentials := none })
    ∧ (∀ s : CredentialStoreState, s.vaultConfigured = true ∨ s.file ≠ none →
        isAuthenticated (clearCredentials s).credentials = false)
    ∧ (∀ s : CredentialStoreState,
        clearCredentials (clearCredentials s) = clearCredentials s) := by
  refine ⟨?_, ?_, ?_, ?_⟩
  · intro s h
    simp [clearCredentials, h]
  · intro s v h hf
    simp [clearCredentials, h, hf]
  · intro s h
    rcases h with h | h
    · simp [clearCredentials, h, isAuthenticated]
    · cases hf : s.file with
      | none => exact absurd hf h
      | some v =>
        cases hv : s.vaultConfigured <;>
          simp [clearCredentials, hv, hf, isAuthenticated]
  · intro s
    by_cases hv : s.vaultConfigured
    · simp [clearCredentials, hv]
    · cases hf : s.file with
      | none => simp [clearCredentials, hv, hf]
      | some v => simp [clearCredentials, hv, hf]

theorem C9_amended_witness :
    clearCredentials ⟨true, some "v", none, some ⟨"t", "r", 0, none, none⟩⟩ =
      ⟨true, none, none, none⟩ ∧
    clearCredentials (clearCredentials
        ⟨false, none, some "c", some ⟨"t", "r", 0, none, none⟩⟩) =
      clearCredentials ⟨false, none, some "c", some ⟨"t", "r", 0, none, none⟩⟩ :=
  ⟨C9_amended.1 ⟨true, some "v", none, some ⟨"t", "r", 0, none, none⟩⟩ rfl,
   C9_amended.2.2.2 ⟨false, none, some "c", some ⟨"t", "r", 0, none, none⟩⟩⟩

/-- Claim C10 (counterexample): a fragment carrying the explicit empty
string as its id produces a `tool_call` event whose `callId` is the
empty string (`call.id ?? ...` keeps `""` at creation and
`if (call.id)` never overwrites it), refuting "every tool_call event
has a non-empty callId". -/
theorem C10_counterexample :
    streamChatCompletion [⟨none, some [⟨some 0, some "", some "f", none⟩]⟩] =
      [.toolCall "" "f" (.obj [])] := rfl

/-- Claim C10 (amended): every `tool_call` event's `callId` is the `id`
of its accumulator, which equals `idOfFragments` of the fragments that
arrived for that index: the last fragment supplying a non-empty id wins;
if no fragment supplied a non-empty id, the id is the creation value of
the first fragment — the string `"tool_call_<index>"` when every
fragment omitted the id, and possibly the empty string only when a
fragment carried an explicitly empty id. -/
theorem C10_amended (chunks : List StreamChunk) :
    (∀ (k : Nat) (acc : ToolCallAcc), mapGet (streamAccs chunks) k = some acc →
      acc.id = idOfFragments k
          ((allFragments chunks).filter (fun f => fragIndex f = k))
      ∧ ((∀ f ∈ (allFragments chunks).filter (fun f => fragIndex f = k),
            f.id ≠ some "") → acc.id ≠ "")
      ∧ ((∀ f ∈ (allFragments chunks).filter (fun f => fragIndex f = k),
            f.id = none) → acc.id = "tool_call_" ++ toString k))
    ∧ (∀ (l₁ l₂ : List ToolCallFragment) (f : ToolCallFragment) (k : Nat),
        (allFragments chunks).filter (fun g => fragIndex g = k) =
          l₁ ++ f :: l₂ →
        truthyStr f.id = true → (∀ g ∈ l₂, truthyStr g.id = false) →
        ∀ acc, mapGet (streamAccs chunks) k = some acc →
          acc.id = f.id.getD "")
    ∧ (∀ e ∈ finalizeToolCalls (streamAccs chunks),
        ∃ k acc inp, mapGet (streamAccs chunks) k = some acc ∧
          e = .toolCall acc.id (acc.name.getD "tool") inp) := by
  refine ⟨?_, ?_, ?_⟩
  · intro k acc h
    refine ⟨streamAccs_id chunks k acc h, ?_, ?_⟩
    · intro hno
      rw [streamAccs_id chunks k acc h]
      exact idOfFragments_ne_empty _ _ hno
    · intro hnone
      rw [streamAccs_id chunks k acc h]
      exact idOfFragments_no_id _ _ hnone
  · intro l₁ l₂ f k hsplit htr hl₂ acc h
    rw [streamAccs_id chunks k acc h, hsplit]
    exact idOfFragments_last_truthy k l₁ l₂ f htr hl₂
  · intro e he
    obtain ⟨k, a, hget, rfl⟩ :=
      finalizeToolCalls_mem _ e (streamAccs_keys_nodup chunks) he
    obtain ⟨inp, hshape⟩ := finalizeAcc_shape a
    exact ⟨k, a, inp, hget, hshape⟩

theorem C10_amended_witness :
    mapGet (streamAccs [⟨none, some [⟨some 0, none, some "f", none⟩]⟩]) 0 =
      some ⟨"tool_call_0", some "f", ""⟩ ∧
    ("tool_call_0" : String) = "tool_call_" ++ toString 0 :=
  ⟨rfl,
   ((C10_amended [⟨none, some [⟨some 0, none, some "f", none⟩]⟩]).1 0
     ⟨"tool_call_0", some "f", ""⟩ rfl).2.2 (by decide)⟩

end QwenCopilot
